import Mathlib

/-!
Verification development for the FEM model assembly engine declared in
`multibody/fem/fem_model.h` (class `FemModel<T>` with its nested `Builder`).

The header declares the public contract (NVI façade `CalcResidual`,
`CalcTangentMatrix`, `MakePetscSymmetricBlockSparseTangentMatrix`,
`MakeFemState`, `num_nodes`, `num_dofs`, and the builder lifecycle); the
implementation bodies live outside the provided sources, so they are
modelled from the specification document, faithful to its assembly
algorithms (insertion-order element loops, gather/scatter, symmetric
block-sparse storage of one triangle with mirroring on read).

The scalar type `T` is instantiated with the exact commutative ring `ℤ`:
every claim verified here is about the assembly structure (which element
touches which global entry, in which order, with which weights), and the
operations involved are ring operations; floating-point rounding is out
of scope.
-/

/-- Error kinds surfaced by the core, from the spec's error table
(IncompatibleState, SizeMismatch, UnallocatedBlock, BuilderConsumed,
InvalidElement) plus DemandFailed for a failed `DRAKE_DEMAND` assertion. -/
inductive FemError where
  | IncompatibleState
  | SizeMismatch
  | UnallocatedBlock
  | BuilderConsumed
  | InvalidElement
  | DemandFailed
deriving DecidableEq, Repr

/-- A 3×3 block of scalars: the atomic unit of the symmetric block-sparse
tangent matrix (one node carries three positional DOFs). -/
abbrev Mat3 : Type := Fin 3 → Fin 3 → ℤ

/-- Block transpose. -/
def trans3 (B : Mat3) : Mat3 := fun i j => B j i

/-- Modelled from the spec: an FEM element (the Element trait of §4.1,
whose concrete C++ implementation `FemElement` is not among the provided
sources). It is a tuple of node indices, plus the per-element
residual/stiffness/damping/mass computations, each a function of the
local (x, v, a) slices gathered at the element's nodes. Local matrices
are addressed by local node-block pair `(p, q)`. -/
structure FemElement where
  nodes : List Nat
  localResidual : List ℤ → List ℤ → List ℤ → List ℤ
  localStiffness : List ℤ → List ℤ → List ℤ → Nat → Nat → Mat3
  localDamping : List ℤ → List ℤ → List ℤ → Nat → Nat → Mat3
  localMass : Nat → Nat → Mat3

/-- Modelled from the spec: the state system (`FemStateSystem`, not among
the provided sources) fixes the model's DOF count and carries the opaque
identity used to match states to models. -/
structure FemStateSystem where
  id : Nat
  num_dofs : Nat

/-- Modelled from the spec: an FEM state (`FemState`, not among the
provided sources): stacked nodal positions, velocities and accelerations,
stamped with the identity of the state system that produced it. -/
structure FemState where
  systemId : Nat
  x : List ℤ
  v : List ℤ
  a : List ℤ

/-- The FEM model: per `fem_model.h` it owns its `FemStateSystem`; the
element array is held by the typed implementation (`FemModelImpl`,
modelled from the spec as a list of elements iterated in insertion
order), together with the reference positions that
`MakeReferencePositions` returns. -/
structure FemModel where
  fem_state_system : FemStateSystem
  referencePositions : List ℤ
  elements : List FemElement

/-- `num_dofs()` delegates to the state system (fem_model.h line 125). -/
def FemModel.num_dofs (m : FemModel) : Nat := m.fem_state_system.num_dofs

/-- `num_nodes()` is `num_dofs() / 3` (fem_model.h line 122); the header
notes the DOF count is always a multiple of 3, enforced by
`FemStateSystem`. -/
def FemModel.num_nodes (m : FemModel) : Nat := m.num_dofs / 3

/-- `num_elements()` of the typed model. -/
def FemModel.num_elements (m : FemModel) : Nat := m.elements.length

/-- Well-formedness of an element with respect to a node count, from the
spec's data-model invariants: the node tuple has no repeats and every
referenced node index is within `[0, node count)`. -/
def FemElement.wf (e : FemElement) (numNodes : Nat) : Prop :=
  e.nodes.Nodup ∧ ∀ n ∈ e.nodes, n < numNodes

/-- Well-formedness of a model: the DOF count is a multiple of 3 (header
comment, enforced by `FemStateSystem`), the reference positions span all
DOFs, and every element is well formed. -/
def FemModel.wf (m : FemModel) : Prop :=
  m.num_dofs % 3 = 0 ∧
  m.referencePositions.length = m.num_dofs ∧
  ∀ e ∈ m.elements, e.wf m.num_nodes

/-- Modelled from the spec: a state is accepted by a model iff its
state-system identity equals the model's and its DOF count equals the
model's (spec §3, FEM state invariant). -/
def FemModel.accepts (m : FemModel) (s : FemState) : Prop :=
  s.systemId = m.fem_state_system.id ∧
  s.x.length = m.num_dofs ∧ s.v.length = m.num_dofs ∧ s.a.length = m.num_dofs

instance (m : FemModel) (s : FemState) : Decidable (m.accepts s) := by
  unfold FemModel.accepts; infer_instance

/-- Modelled from the spec: `MakeFemState()` produces a state with x
initialized to the reference positions, v = 0, a = 0, stamped with this
model's state-system identity. -/
def FemModel.MakeFemState (m : FemModel) : FemState :=
  { systemId := m.fem_state_system.id
  , x := m.referencePositions
  , v := List.replicate m.num_dofs 0
  , a := List.replicate m.num_dofs 0 }

/-- First position of a node index in an element's node tuple. -/
def findIndex (x : Nat) : List Nat → Option Nat
  | [] => none
  | n :: ns => if n = x then some 0 else (findIndex x ns).map (· + 1)

/-- Modelled from the spec: gather the local slice of a stacked nodal
vector at an element's nodes (three consecutive scalars per node). -/
def gather (nodes : List Nat) (xs : List ℤ) : List ℤ :=
  nodes.flatMap fun n => [xs.getD (3 * n) 0, xs.getD (3 * n + 1) 0, xs.getD (3 * n + 2) 0]

/-- Modelled from the spec: scatter-add a local vector into the global
vector: node `n` receives the next three scalars of the local vector. The
global vector is represented as a total function during assembly. -/
def scatterAdd : List Nat → List ℤ → (Nat → ℤ) → Nat → ℤ
  | [], _, g => g
  | n :: ns, loc, g =>
      scatterAdd ns (loc.drop 3)
        (fun i => if i / 3 = n then g i + loc.getD (i % 3) 0 else g i)

/-- The local residual of an element evaluated at a state: the element's
residual computation applied to the gathered (x, v, a) slices. -/
def FemElement.residualAt (e : FemElement) (s : FemState) : List ℤ :=
  e.localResidual (gather e.nodes s.x) (gather e.nodes s.v) (gather e.nodes s.a)

/-- Modelled from the spec: the residual assembly loop. Iterate over the
elements in insertion order; for each, gather the local state slice,
evaluate the element residual, scatter-add into the global residual
(spec §4.2, assembly algorithm). -/
def assembleResidual (elems : List FemElement) (s : FemState) : Nat → ℤ :=
  elems.foldl (fun g e => scatterAdd e.nodes (e.residualAt s) g) (fun _ => 0)

/-- The contribution of one element to global DOF `i`: zero unless the
element touches node `i / 3`, in which case it is the entry of the local
residual at the corresponding local DOF. -/
def FemElement.dofContrib (e : FemElement) (s : FemState) (i : Nat) : ℤ :=
  match findIndex (i / 3) e.nodes with
  | some p => (e.residualAt s).getD (3 * p + i % 3) 0
  | none => 0

/-- Modelled from the spec: the `CalcResidual` façade. It validates the
state against the model (IncompatibleState, per the header's documented
throw and the spec's error table), validates the caller-allocated output
length (SizeMismatch), then delegates to the assembly loop, overwriting
the output. -/
def FemModel.CalcResidual (m : FemModel) (s : FemState) (residual : List ℤ) :
    Except FemError (List ℤ) :=
  if ¬ m.accepts s then .error .IncompatibleState
  else if residual.length ≠ m.num_dofs then .error .SizeMismatch
  else .ok ((List.range m.num_dofs).map (assembleResidual m.elements s))

/-- A `CalcResidual` call as seen by the caller: the model is `const`
through the call, so the call returns the unchanged model together with
the output. -/
def FemModel.CalcResidualCall (m : FemModel) (s : FemState) (residual : List ℤ) :
    FemModel × Except FemError (List ℤ) :=
  (m, m.CalcResidual s residual)

/-- Two successive `CalcResidual` calls with the same state: the second
call runs on the model returned by the first. -/
def twoResidualCalls (m : FemModel) (s : FemState) (residual : List ℤ) :
    Except FemError (List ℤ) × Except FemError (List ℤ) :=
  let first := m.CalcResidualCall s residual
  let second := first.1.CalcResidualCall s residual
  (first.2, second.2)

/-- Modelled from the spec: the `PetscSymmetricBlockSparseMatrix`
container (§4.6; its C++ implementation is not among the provided
sources). Only the upper block triangle is stored; `alloc` records the
pre-allocated structurally-nonzero pattern over block pairs `(i, j)` with
`i ≤ j`. The matrix is `3 * numBlockRows` square. -/
structure BSM where
  numBlockRows : Nat
  alloc : Nat → Nat → Bool
  blocks : Nat → Nat → Mat3

/-- Read a block, mirroring the stored triangle: for `i > j` the stored
block `(j, i)` is returned transposed (symmetry enforced structurally by
storing one triangle and mirroring on read). -/
def BSM.get (A : BSM) (i j : Nat) : Mat3 :=
  if i ≤ j then A.blocks i j else trans3 (A.blocks j i)

/-- Modelled from the spec: `AddToBlock(i, j, B)` — additive assembly into
block `(i, j)`, transposing the block into the stored triangle when
`i > j` (design note §9, symmetric storage). Fails with UnallocatedBlock
when the target block is not in the pre-allocated pattern. -/
def BSM.addToBlock (A : BSM) (i j : Nat) (B : Mat3) : Except FemError BSM :=
  if A.alloc (min i j) (max i j) then
    .ok { A with blocks := fun r c =>
                   if r = min i j ∧ c = max i j then
                     A.blocks r c + (if i ≤ j then B else trans3 B)
                   else A.blocks r c }
  else .error .UnallocatedBlock

/-- A fold over a list of assembly steps in the `Except` error monad,
stopping at the first failure (written out structurally). -/
def foldE {α : Type} (f : BSM → α → Except FemError BSM) : List α → BSM → Except FemError BSM
  | [], A => .ok A
  | x :: xs, A =>
      match f A x with
      | .ok A' => foldE f xs A'
      | .error err => .error err

/-- The local index pairs `(p, q)` with `p ≤ q < k`: each unordered pair
of an element's local node blocks is visited exactly once when the local
matrix is scattered into the symmetric container. -/
def pairsLE (k : Nat) : List (Nat × Nat) :=
  ((List.range k).product (List.range k)).filter fun pq => pq.1 ≤ pq.2

/-- The combined local tangent block of an element at local pair `(p, q)`:
`wₖ·Kₑ + w_d·Dₑ + w_m·Mₑ` with stiffness and damping evaluated at the
gathered local state slices and the mass constant across states. -/
def FemElement.combinedBlock (e : FemElement) (s : FemState) (w : ℤ × ℤ × ℤ)
    (p q : Nat) : Mat3 :=
  fun i j =>
    w.1 * e.localStiffness (gather e.nodes s.x) (gather e.nodes s.v) (gather e.nodes s.a) p q i j +
    w.2.1 * e.localDamping (gather e.nodes s.x) (gather e.nodes s.v) (gather e.nodes s.a) p q i j +
    w.2.2 * e.localMass p q i j

/-- Modelled from the spec: scatter one element's combined local tangent
into the global matrix. Each unordered local pair is added once through
`AddToBlock`, which performs the triangle normalization. -/
def FemElement.scatterTangent (e : FemElement) (s : FemState) (w : ℤ × ℤ × ℤ)
    (A : BSM) : Except FemError BSM :=
  foldE
    (fun A pq =>
      A.addToBlock (e.nodes.getD pq.1 0) (e.nodes.getD pq.2 0) (e.combinedBlock s w pq.1 pq.2))
    (pairsLE e.nodes.length) A

/-- Modelled from the spec: the `CalcTangentMatrix` façade. It validates
state compatibility and output sizing, then iterates the elements in
insertion order, adding each element's weighted local tangent into the
caller-owned matrix. -/
def FemModel.CalcTangentMatrix (m : FemModel) (s : FemState) (w : ℤ × ℤ × ℤ)
    (tangent_matrix : BSM) : Except FemError BSM :=
  if ¬ m.accepts s then .error .IncompatibleState
  else if 3 * tangent_matrix.numBlockRows ≠ m.num_dofs then .error .SizeMismatch
  else foldE (fun A e => e.scatterTangent s w A) m.elements tangent_matrix

/-- Whether some element of the model references both node `i` and node
`j` (element-node adjacency, which determines the tangent sparsity). -/
def FemModel.adjacent (m : FemModel) (i j : Nat) : Bool :=
  m.elements.any fun e => decide (i ∈ e.nodes) && decide (j ∈ e.nodes)

/-- Modelled from the spec: the tangent-matrix factory
(`MakePetscSymmetricBlockSparseTangentMatrix`): a zero-valued matrix of
size `num_dofs()` by `num_dofs()` whose allocated block pattern is
exactly the element-node adjacency pattern (spec §4.2, sparsity
construction). -/
def FemModel.MakePetscSymmetricBlockSparseTangentMatrix (m : FemModel) : BSM :=
  { numBlockRows := m.num_nodes
  , alloc := fun i j => m.adjacent i j
  , blocks := fun _ _ => 0 }

/-- The expected total contribution of one element to global block
`(i, j)` of the tangent: the combined local block between the local
indices of `i` and `j` when the element touches both nodes, zero
otherwise. -/
def FemElement.tangentContrib (e : FemElement) (s : FemState) (w : ℤ × ℤ × ℤ)
    (i j : Nat) : Mat3 :=
  match findIndex i e.nodes, findIndex j e.nodes with
  | some p, some q => e.combinedBlock s w p q
  | _, _ => 0

/-- Block-wise symmetry of the assembled matrix: every read block equals
the transpose of its mirror. -/
def BSM.isSymm (A : BSM) : Prop :=
  ∀ i j, A.get j i = trans3 (A.get i j)

/-- Repeated use of one tangent matrix: `n` successive `CalcTangentMatrix`
calls threading the matrix through. -/
def FemModel.iterTangent (m : FemModel) (s : FemState) (w : ℤ × ℤ × ℤ) :
    Nat → BSM → Except FemError BSM
  | 0, A => .ok A
  | n + 1, A =>
      match m.CalcTangentMatrix s w A with
      | .ok A' => m.iterTangent s w n A'
      | .error err => .error err

/-- The FemModel Builder of `fem_model.h`: it holds a non-owning pointer
to the model it builds into (modelled as an optional reference token, so
that the null-pointer `DRAKE_DEMAND` in the constructor is expressible)
and the `built_` flag that records whether `Build()` has been called.
Elements described by builder calls are accumulated until `Build()`. -/
structure Builder where
  model_ : Option Nat
  built_ : Bool
  pending : List FemElement

/-- The Builder constructor (fem_model.h lines 101-103): demands a
non-null model pointer, and starts with `built_ = false`. -/
def Builder.make (model : Option Nat) : Except FemError Builder :=
  match model with
  | none => .error .DemandFailed
  | some r => .ok { model_ := some r, built_ := false, pending := [] }

/-- The methods that can be invoked on a builder: the kind-specific
element-adding mutators and `Build()` itself. -/
inductive BuilderMethod where
  | addElement (e : FemElement)
  | build

/-- Modelled from the spec: invoking a method on a builder. Every method
first runs `ThrowIfBuilt()` (fem_model.h line 95): if `Build()` has been
called the builder is spent and the method fails with BuilderConsumed,
leaving the builder unchanged; `Build()` itself sets `built_`. -/
def Builder.invoke (b : Builder) : BuilderMethod → Builder × Option FemError
  | .addElement e =>
      if b.built_ then (b, some .BuilderConsumed)
      else ({ b with pending := b.pending ++ [e] }, none)
  | .build =>
      if b.built_ then (b, some .BuilderConsumed)
      else ({ b with built_ := true, pending := [] }, none)

/-- A sequence of method invocations on a builder, collecting the outcome
of each call. -/
def Builder.runTrace (b : Builder) : List BuilderMethod → List (Option FemError)
  | [] => []
  | msg :: rest =>
      let step := b.invoke msg
      step.2 :: step.1.runTrace rest

/-- The change one `AddToBlock` call performed during the scatter of pair
`pq` of an element makes to the stored block `(r, c)`. -/
def pairDelta (e : FemElement) (s : FemState) (w : ℤ × ℤ × ℤ) (pq : Nat × Nat)
    (r c : Nat) : Mat3 :=
  if r = min (e.nodes.getD pq.1 0) (e.nodes.getD pq.2 0) ∧
     c = max (e.nodes.getD pq.1 0) (e.nodes.getD pq.2 0) then
    (if e.nodes.getD pq.1 0 ≤ e.nodes.getD pq.2 0 then e.combinedBlock s w pq.1 pq.2
     else trans3 (e.combinedBlock s w pq.1 pq.2))
  else 0

instance (e : FemElement) (n : Nat) : Decidable (e.wf n) := by
  unfold FemElement.wf; infer_instance

instance (m : FemModel) : Decidable m.wf := by
  unfold FemModel.wf; infer_instance

/-- A test element: two nodes, constant local computations (symmetric). -/
def e0 : FemElement :=
  { nodes := [0, 1]
  , localResidual := fun _ _ _ => [1, 2, 3, 4, 5, 6]
  , localStiffness := fun _ _ _ _ _ => fun _ _ => 1
  , localDamping := fun _ _ _ _ _ => fun _ _ => 0
  , localMass := fun _ _ => fun _ _ => 2 }

/-- A test model: two nodes (six DOFs), one element. -/
def m0 : FemModel :=
  { fem_state_system := { id := 7, num_dofs := 6 }
  , referencePositions := [0, 0, 0, 1, 0, 0]
  , elements := [e0] }

/-- The default state of the test model. -/
def s0 : FemState := m0.MakeFemState

/-- A correctly sized output vector for the test model. -/
def r0 : List ℤ := List.replicate 6 0

/-- The residual the test model assembles at its default state. -/
def out0 : List ℤ := [1, 2, 3, 4, 5, 6]

/-- A state carrying a foreign state-system identity. -/
def sBad : FemState :=
  { systemId := 8, x := List.replicate 6 0, v := List.replicate 6 0, a := List.replicate 6 0 }

/-- An output vector of the wrong length. -/
def rBad : List ℤ := List.replicate 5 0

/-- Stiffness-only weights. -/
def w0 : ℤ × ℤ × ℤ := (1, 0, 0)

/-- The tangent matrix allocated for the test model. -/
def T0 : BSM := m0.MakePetscSymmetricBlockSparseTangentMatrix

/-- A tangent matrix of the right size with no allocated blocks. -/
def Tbad : BSM :=
  { numBlockRows := 2, alloc := fun _ _ => false, blocks := fun _ _ => 0 }

/-- A fresh (not yet built) builder. -/
def bFresh : Builder := { model_ := some 0, built_ := false, pending := [] }

/-- A spent builder (after `Build()`). -/
def bBuilt : Builder := { model_ := some 0, built_ := true, pending := [] }

instance {ε α : Type} [DecidableEq ε] [DecidableEq α] : DecidableEq (Except ε α) := fun x y =>
  match x, y with
  | .ok a, .ok b =>
      if h : a = b then .isTrue (congrArg Except.ok h)
      else .isFalse fun hc => h (Except.ok.inj hc)
  | .ok _, .error _ => .isFalse fun hc => Except.noConfusion hc
  | .error _, .ok _ => .isFalse fun hc => Except.noConfusion hc
  | .error e, .error f =>
      if h : e = f then .isTrue (congrArg Except.error h)
      else .isFalse fun hc => h (Except.error.inj hc)

/-! ### Helper lemmas -/

theorem getD_drop (l : List ℤ) (n m : Nat) : (l.drop n).getD m 0 = l.getD (n + m) 0 := by
  simp [List.getD_eq_getElem?_getD, List.getElem?_drop]

theorem findIndex_eq_none {x : Nat} {l : List Nat} (h : x ∉ l) : findIndex x l = none := by
  induction l with
  | nil => rfl
  | cons n ns ih =>
      have hnx : ¬ n = x := fun he => h (he ▸ List.mem_cons_self n ns)
      have hxs : x ∉ ns := fun hm => h (List.mem_cons_of_mem _ hm)
      simp [findIndex, hnx, ih hxs]

theorem findIndex_some {x : Nat} {l : List Nat} {p : Nat} (h : findIndex x l = some p) :
    p < l.length ∧ l.getD p 0 = x := by
  induction l generalizing p with
  | nil => cases h
  | cons n ns ih =>
      by_cases hnx : n = x
      · simp [findIndex, hnx] at h
        subst h
        exact ⟨Nat.succ_pos _, hnx⟩
      · simp [findIndex, hnx] at h
        obtain ⟨p', hp', rfl⟩ := h
        obtain ⟨hlt, hget⟩ := ih hp'
        exact ⟨Nat.succ_lt_succ hlt, by simpa using hget⟩

theorem findIndex_isSome {x : Nat} {l : List Nat} (h : x ∈ l) :
    ∃ p, findIndex x l = some p := by
  induction l with
  | nil => cases h
  | cons n ns ih =>
      by_cases hnx : n = x
      · exact ⟨0, by simp [findIndex, hnx]⟩
      · have hxs : x ∈ ns := by
          rcases List.mem_cons.mp h with he | hm
          · exact absurd he.symm hnx
          · exact hm
        obtain ⟨p, hp⟩ := ih hxs
        exact ⟨p + 1, by simp [findIndex, hnx, hp]⟩

theorem nodup_getD_inj {l : List Nat} (h : l.Nodup) {p q : Nat}
    (hp : p < l.length) (hq : q < l.length) (he : l.getD p 0 = l.getD q 0) : p = q := by
  rw [List.getD_eq_getElem _ _ hp, List.getD_eq_getElem _ _ hq] at he
  have hpq : (⟨p, hp⟩ : Fin l.length) = ⟨q, hq⟩ := (List.Nodup.get_inj_iff h).mp he
  exact congrArg Fin.val hpq

theorem sum_map_eq_single {α M : Type} [AddCommMonoid M] {l : List α} {f : α → M}
    {a : α} (hnd : l.Nodup) (ha : a ∈ l) (hz : ∀ b ∈ l, b ≠ a → f b = 0) :
    (l.map f).sum = f a := by
  induction l with
  | nil => cases ha
  | cons x xs ih =>
      obtain ⟨hx, hxs⟩ := List.nodup_cons.mp hnd
      rcases List.mem_cons.mp ha with rfl | hmem
      · have hrest : (xs.map f).sum = 0 := by
          apply List.sum_eq_zero
          intro y hy
          obtain ⟨b, hb, rfl⟩ := List.mem_map.mp hy
          exact hz b (List.mem_cons_of_mem _ hb) (fun he => hx (he ▸ hb))
        simp [hrest]
      · have hx0 : f x = 0 :=
          hz x (List.mem_cons_self _ _) (fun he => hx (he ▸ hmem))
        have := ih hxs hmem (fun b hb hne => hz b (List.mem_cons_of_mem _ hb) hne)
        simp [hx0, this]

theorem trans3_add (B C : Mat3) : trans3 (B + C) = trans3 B + trans3 C := rfl

theorem trans3_zero : trans3 0 = 0 := rfl

theorem trans3_sum (l : List Mat3) : trans3 l.sum = (l.map trans3).sum := by
  induction l with
  | nil => rfl
  | cons x xs ih =>
      simp only [List.sum_cons, List.map_cons, trans3_add, ih]

theorem mem_pairsLE {k : Nat} {pq : Nat × Nat} :
    pq ∈ pairsLE k ↔ pq.1 < k ∧ pq.2 < k ∧ pq.1 ≤ pq.2 := by
  cases pq with
  | mk p q =>
      rw [pairsLE, List.mem_filter, List.pair_mem_product]
      simp [List.mem_range, and_assoc]

theorem pairsLE_nodup (k : Nat) : (pairsLE k).Nodup :=
  List.Nodup.filter _ (List.Nodup.product (List.nodup_range k) (List.nodup_range k))

/-! ### Claim theorems: invariants, state construction, builder, errors -/

/-- C4: for every well-formed model M (the header records that the DOF
count is always a multiple of 3, enforced by `FemStateSystem`),
`M.num_dofs()` equals exactly `3 * M.num_nodes()`. -/
theorem num_dofs_eq_three_mul_num_nodes (m : FemModel) (hwf : m.wf) :
    m.num_dofs = 3 * m.num_nodes :=
  (Nat.mul_div_cancel' (Nat.dvd_of_mod_eq_zero hwf.1)).symm

theorem num_dofs_eq_three_mul_num_nodes_witness :
    m0.wf ∧ m0.num_dofs = 3 * m0.num_nodes :=
  ⟨by decide, num_dofs_eq_three_mul_num_nodes m0 (by decide)⟩

/-- C9: two successive `CalcResidual` invocations with the same state
produce equal outputs: the call is a pure function of the model and the
state, and the model is unchanged by the first call. -/
theorem CalcResidual_deterministic (m : FemModel) (s : FemState) (r : List ℤ) :
    (twoResidualCalls m s r).1 = (twoResidualCalls m s r).2 := rfl

theorem CalcResidual_deterministic_witness :
    (twoResidualCalls m0 s0 r0).1 = (twoResidualCalls m0 s0 r0).2 :=
  CalcResidual_deterministic m0 s0 r0

/-- C5: the state returned by `MakeFemState()` has v = 0, a = 0, x equal
to the model's reference positions, carries the model's state-system
identity, and is accepted by the model. -/
theorem MakeFemState_spec (m : FemModel) (hwf : m.wf) :
    (m.MakeFemState).v = List.replicate m.num_dofs 0 ∧
    (m.MakeFemState).a = List.replicate m.num_dofs 0 ∧
    (m.MakeFemState).x = m.referencePositions ∧
    (m.MakeFemState).systemId = m.fem_state_system.id ∧
    m.accepts m.MakeFemState := by
  refine ⟨rfl, rfl, rfl, rfl, ?_⟩
  have h := hwf.2.1
  simp [FemModel.accepts, FemModel.MakeFemState, h]

theorem MakeFemState_spec_witness :
    m0.wf ∧
    ((m0.MakeFemState).v = List.replicate m0.num_dofs 0 ∧
     (m0.MakeFemState).a = List.replicate m0.num_dofs 0 ∧
     (m0.MakeFemState).x = m0.referencePositions ∧
     (m0.MakeFemState).systemId = m0.fem_state_system.id ∧
     m0.accepts m0.MakeFemState) :=
  ⟨by decide, MakeFemState_spec m0 (by decide)⟩

/-- C8: a method invoked on a spent builder (after `Build()`) fails with
BuilderConsumed and leaves the builder unchanged; before the first
`Build()` no BuilderConsumed failure occurs; `Build()` marks the builder
spent; and every invocation of a trace run on a spent builder fails with
BuilderConsumed. -/
theorem Builder_consumed_after_build (b : Builder) (msg : BuilderMethod) :
    (b.built_ = true → b.invoke msg = (b, some .BuilderConsumed)) ∧
    (b.built_ = false → (b.invoke msg).2 ≠ some .BuilderConsumed) ∧
    (b.built_ = false → ((b.invoke .build).1).built_ = true) ∧
    (b.built_ = true → ∀ msgs, ∀ r ∈ b.runTrace msgs, r = some .BuilderConsumed) := by
  refine ⟨?_, ?_, ?_, ?_⟩
  · intro h; cases msg <;> simp [Builder.invoke, h]
  · intro h; cases msg <;> simp [Builder.invoke, h]
  · intro h; simp [Builder.invoke, h]
  · intro h msgs
    induction msgs with
    | nil => intro r hr; cases hr
    | cons m rest ih =>
        have hstep : ∀ mm : BuilderMethod, b.invoke mm = (b, some .BuilderConsumed) := by
          intro mm; cases mm <;> simp [Builder.invoke, h]
        intro r hr
        rw [Builder.runTrace, hstep m] at hr
        rcases List.mem_cons.mp hr with rfl | hr'
        · rfl
        · exact ih r hr'

theorem Builder_consumed_after_build_witness :
    bBuilt.invoke .build = (bBuilt, some .BuilderConsumed) ∧
    (bFresh.invoke .build).2 ≠ some .BuilderConsumed ∧
    ((bFresh.invoke .build).1).built_ = true :=
  ⟨(Builder_consumed_after_build bBuilt .build).1 rfl,
   (Builder_consumed_after_build bFresh .build).2.1 rfl,
   (Builder_consumed_after_build bFresh .build).2.2.1 rfl⟩

/-- C10: constructing a builder with a null model pointer fails the
`DRAKE_DEMAND` assertion; a successfully constructed builder holds the
given non-null model reference; and no method invocation ever changes
(in particular, nulls) the held model reference. The reference is a
borrowed token, never an owning copy of the model. -/
theorem Builder_model_nonnull :
    Builder.make none = .error .DemandFailed ∧
    (∀ (r : Nat) (b : Builder), Builder.make (some r) = .ok b → b.model_ = some r) ∧
    (∀ (b : Builder) (msg : BuilderMethod), ((b.invoke msg).1).model_ = b.model_) := by
  refine ⟨rfl, ?_, ?_⟩
  · intro r b h
    simp only [Builder.make, Except.ok.injEq] at h
    exact h ▸ rfl
  · intro b msg
    cases msg <;> simp only [Builder.invoke] <;> split <;> rfl

theorem Builder_model_nonnull_witness :
    bFresh.model_ = some 0 ∧ ((bFresh.invoke .build).1).model_ = bFresh.model_ :=
  ⟨Builder_model_nonnull.2.1 0 bFresh rfl, Builder_model_nonnull.2.2 bFresh .build⟩

/-- C6 counterexample: at a state whose identity differs from the
model's AND an output vector of the wrong length, `CalcResidual` reports
IncompatibleState, not SizeMismatch — the claim's two "whenever" clauses
cannot both hold at this input. -/
theorem CalcResidual_error_both_cex :
    sBad.systemId ≠ m0.fem_state_system.id ∧
    rBad.length ≠ m0.num_dofs ∧
    m0.CalcResidual sBad rBad = .error .IncompatibleState ∧
    m0.CalcResidual sBad rBad ≠ .error .SizeMismatch := by decide

/-- C6 (amended): `CalcResidual` fails with IncompatibleState whenever
the state's identity differs from the model's; it fails with
SizeMismatch whenever the state is accepted and the output length is
wrong (the incompatibility check runs first); and whenever a result is
produced, the state was accepted and the output length was right. -/
theorem CalcResidual_error_kinds (m : FemModel) (s : FemState) (r : List ℤ) :
    (s.systemId ≠ m.fem_state_system.id → m.CalcResidual s r = .error .IncompatibleState) ∧
    (m.accepts s → r.length ≠ m.num_dofs → m.CalcResidual s r = .error .SizeMismatch) ∧
    (∀ out, m.CalcResidual s r = .ok out → m.accepts s ∧ r.length = m.num_dofs) := by
  refine ⟨?_, ?_, ?_⟩
  · intro h
    have hni : ¬ m.accepts s := fun hacc => h hacc.1
    simp [FemModel.CalcResidual, hni]
  · intro hacc hlen
    simp [FemModel.CalcResidual, hacc, hlen]
  · intro out hout
    by_cases hacc : m.accepts s
    · by_cases hlen : r.length = m.num_dofs
      · exact ⟨hacc, hlen⟩
      · simp [FemModel.CalcResidual, hacc, hlen] at hout
    · simp [FemModel.CalcResidual, hacc] at hout

theorem CalcResidual_error_kinds_witness :
    m0.CalcResidual sBad r0 = .error .IncompatibleState ∧
    m0.CalcResidual s0 rBad = .error .SizeMismatch :=
  ⟨(CalcResidual_error_kinds m0 sBad r0).1 (by decide),
   (CalcResidual_error_kinds m0 s0 rBad).2.1 (by decide) (by decide)⟩

/-! ### Residual assembly (C1) -/

theorem scatterAdd_apply (nodes : List Nat) (hnd : nodes.Nodup) (loc : List ℤ)
    (g : Nat → ℤ) (i : Nat) :
    scatterAdd nodes loc g i =
      g i + (match findIndex (i / 3) nodes with
             | some p => loc.getD (3 * p + i % 3) 0
             | none => 0) := by
  induction nodes generalizing loc g with
  | nil => simp [scatterAdd, findIndex]
  | cons n ns ih =>
      obtain ⟨hn, hns⟩ := List.nodup_cons.mp hnd
      rw [scatterAdd, ih hns]
      by_cases h : i / 3 = n
      · have hnone : findIndex n ns = none := findIndex_eq_none hn
        simp [findIndex, h, hnone]
      · have hne : ¬ (n = i / 3) := fun he => h he.symm
        cases heq : findIndex (i / 3) ns with
        | none => simp [findIndex, hne, heq, h]
        | some p =>
            have harith : 3 + (3 * p + i % 3) = 3 * (p + 1) + i % 3 := by ring
            simp [findIndex, hne, heq, h, getD_drop, harith]

theorem assembleResidual_foldl (elems : List FemElement) (s : FemState)
    (hnd : ∀ e ∈ elems, e.nodes.Nodup) (g : Nat → ℤ) (i : Nat) :
    elems.foldl (fun g e => scatterAdd e.nodes (e.residualAt s) g) g i =
      g i + (elems.map fun e => e.dofContrib s i).sum := by
  induction elems generalizing g with
  | nil => simp
  | cons e rest ih =>
      rw [List.foldl_cons, ih (fun e' he' => hnd e' (List.mem_cons_of_mem _ he')),
        scatterAdd_apply e.nodes (hnd e (List.mem_cons_self _ _)) _ g i,
        List.map_cons, List.sum_cons, add_assoc]
      rfl

theorem assembleResidual_apply (elems : List FemElement) (s : FemState)
    (hnd : ∀ e ∈ elems, e.nodes.Nodup) (i : Nat) :
    assembleResidual elems s i = (elems.map fun e => e.dofContrib s i).sum := by
  rw [assembleResidual, assembleResidual_foldl elems s hnd _ i, zero_add]

/-- C1: after `CalcResidual` succeeds, entry `i` of the output equals the
sum over the elements of the model of that element's local residual
contribution at the corresponding local DOF of node `i / 3`; an element
not adjacent to that node contributes nothing. -/
theorem CalcResidual_assembles (m : FemModel) (s : FemState) (r out : List ℤ)
    (hwf : m.wf) (hok : m.CalcResidual s r = .ok out) (i : Nat) (hi : i < m.num_dofs) :
    out.getD i 0 = (m.elements.map fun e => e.dofContrib s i).sum ∧
    ∀ e ∈ m.elements, (i / 3) ∉ e.nodes → e.dofContrib s i = 0 := by
  constructor
  · by_cases hacc : m.accepts s
    · by_cases hlen : r.length = m.num_dofs
      · have hval : m.CalcResidual s r =
            .ok ((List.range m.num_dofs).map (assembleResidual m.elements s)) := by
          simp [FemModel.CalcResidual, hacc, hlen]
        rw [hval] at hok
        have hout := Except.ok.inj hok
        rw [← hout, List.getD_eq_getElem?_getD, List.getElem?_map, List.getElem?_range hi]
        simpa using assembleResidual_apply m.elements s (fun e he => (hwf.2.2 e he).1) i
      · simp [FemModel.CalcResidual, hacc, hlen] at hok
    · simp [FemModel.CalcResidual, hacc] at hok
  · intro e he hnot
    unfold FemElement.dofContrib
    rw [findIndex_eq_none hnot]

theorem CalcResidual_assembles_witness :
    m0.wf ∧ m0.CalcResidual s0 r0 = .ok out0 ∧ 0 < m0.num_dofs ∧
    (out0.getD 0 0 = (m0.elements.map fun e => e.dofContrib s0 0).sum ∧
     ∀ e ∈ m0.elements, (0 / 3) ∉ e.nodes → e.dofContrib s0 0 = 0) :=
  ⟨by decide, by decide, by decide,
   CalcResidual_assembles m0 s0 r0 out0 (by decide) (by decide) 0 (by decide)⟩

/-! ### Tangent assembly: block-level lemmas -/

theorem getD_mem {l : List Nat} {p : Nat} (hp : p < l.length) : l.getD p 0 ∈ l := by
  rw [List.getD_eq_getElem _ _ hp]
  exact List.getElem_mem hp

theorem addToBlock_cases (A : BSM) (i j : Nat) (B : Mat3) :
    (A.alloc (min i j) (max i j) = true ∧
     ∃ A', A.addToBlock i j B = .ok A' ∧ A'.alloc = A.alloc ∧
       A'.numBlockRows = A.numBlockRows ∧
       ∀ r c, A'.blocks r c = A.blocks r c +
         (if r = min i j ∧ c = max i j then (if i ≤ j then B else trans3 B) else 0)) ∨
    (A.alloc (min i j) (max i j) = false ∧
     A.addToBlock i j B = .error .UnallocatedBlock) := by
  by_cases h : A.alloc (min i j) (max i j) = true
  · left
    refine ⟨h,
      { A with blocks := fun r c =>
                 if r = min i j ∧ c = max i j then
                   A.blocks r c + (if i ≤ j then B else trans3 B)
                 else A.blocks r c },
      ?_, rfl, rfl, ?_⟩
    · rw [BSM.addToBlock, if_pos h]
    · intro r c
      by_cases hc : r = min i j ∧ c = max i j <;> simp [hc]
  · right
    exact ⟨by simpa using h, by rw [BSM.addToBlock, if_neg h]⟩

theorem foldE_pairs (e : FemElement) (s : FemState) (w : ℤ × ℤ × ℤ)
    (ps : List (Nat × Nat)) (A : BSM)
    (hall : ∀ pq ∈ ps,
      A.alloc (min (e.nodes.getD pq.1 0) (e.nodes.getD pq.2 0))
              (max (e.nodes.getD pq.1 0) (e.nodes.getD pq.2 0)) = true) :
    ∃ A', foldE (fun A pq => A.addToBlock (e.nodes.getD pq.1 0) (e.nodes.getD pq.2 0)
            (e.combinedBlock s w pq.1 pq.2)) ps A = .ok A' ∧
      A'.alloc = A.alloc ∧ A'.numBlockRows = A.numBlockRows ∧
      ∀ r c, A'.blocks r c = A.blocks r c + ((ps.map fun pq => pairDelta e s w pq r c).sum) := by
  induction ps generalizing A with
  | nil => exact ⟨A, rfl, rfl, rfl, fun r c => by simp⟩
  | cons pq rest ih =>
      rcases addToBlock_cases A (e.nodes.getD pq.1 0) (e.nodes.getD pq.2 0)
          (e.combinedBlock s w pq.1 pq.2) with
        ⟨_, A1, hok, halloc, hrows, hblocks⟩ | ⟨hfalse, _⟩
      · obtain ⟨A', hA', halloc', hrows', hblocks'⟩ := ih A1
          (fun pq' hpq' => by rw [halloc]; exact hall pq' (List.mem_cons_of_mem _ hpq'))
        refine ⟨A', ?_, halloc'.trans halloc, hrows'.trans hrows, ?_⟩
        · rw [foldE, hok]; exact hA'
        · intro r c
          rw [hblocks', hblocks, List.map_cons, List.sum_cons, add_assoc]
          rfl
      · exact (Bool.false_ne_true (hfalse ▸ hall pq (List.mem_cons_self _ _))).elim

theorem foldE_pairs_err (e : FemElement) (s : FemState) (w : ℤ × ℤ × ℤ)
    (ps : List (Nat × Nat)) (A : BSM)
    (hbad : ∃ pq ∈ ps,
      A.alloc (min (e.nodes.getD pq.1 0) (e.nodes.getD pq.2 0))
              (max (e.nodes.getD pq.1 0) (e.nodes.getD pq.2 0)) = false) :
    foldE (fun A pq => A.addToBlock (e.nodes.getD pq.1 0) (e.nodes.getD pq.2 0)
        (e.combinedBlock s w pq.1 pq.2)) ps A = .error .UnallocatedBlock := by
  induction ps generalizing A with
  | nil => obtain ⟨pq, hpq, _⟩ := hbad; cases hpq
  | cons pq0 rest ih =>
      rcases addToBlock_cases A (e.nodes.getD pq0.1 0) (e.nodes.getD pq0.2 0)
          (e.combinedBlock s w pq0.1 pq0.2) with
        ⟨htrue, A1, hok, halloc, _, _⟩ | ⟨_, herr⟩
      · obtain ⟨pq, hpq, hfalse⟩ := hbad
        rcases List.mem_cons.mp hpq with rfl | hpq'
        · exact (Bool.false_ne_true (hfalse ▸ htrue)).elim
        · rw [foldE, hok]
          exact ih A1 ⟨pq, hpq', by rw [halloc]; exact hfalse⟩
      · rw [foldE, herr]

theorem foldE_pairs_ok_inv (e : FemElement) (s : FemState) (w : ℤ × ℤ × ℤ)
    (ps : List (Nat × Nat)) (A A' : BSM)
    (h : foldE (fun A pq => A.addToBlock (e.nodes.getD pq.1 0) (e.nodes.getD pq.2 0)
        (e.combinedBlock s w pq.1 pq.2)) ps A = .ok A') :
    A'.alloc = A.alloc ∧ A'.numBlockRows = A.numBlockRows ∧
    ∀ i j, A.alloc i j = false → A'.blocks i j = A.blocks i j := by
  induction ps generalizing A with
  | nil =>
      rw [foldE] at h
      obtain rfl := Except.ok.inj h
      exact ⟨rfl, rfl, fun _ _ _ => rfl⟩
  | cons pq rest ih =>
      rcases addToBlock_cases A (e.nodes.getD pq.1 0) (e.nodes.getD pq.2 0)
          (e.combinedBlock s w pq.1 pq.2) with
        ⟨htrue, A1, hok, halloc, hrows, hblocks⟩ | ⟨_, herr⟩
      · rw [foldE, hok] at h
        obtain ⟨ha, hr, hb⟩ := ih A1 h
        refine ⟨ha.trans halloc, hr.trans hrows, ?_⟩
        intro i j hij
        have hne : ¬ (i = min (e.nodes.getD pq.1 0) (e.nodes.getD pq.2 0) ∧
            j = max (e.nodes.getD pq.1 0) (e.nodes.getD pq.2 0)) := by
          rintro ⟨rfl, rfl⟩
          rw [hij] at htrue
          cases htrue
        have h1 : A1.blocks i j = A.blocks i j := by
          rw [hblocks, if_neg hne, add_zero]
        rw [hb i j (halloc.symm ▸ hij), h1]
      · rw [foldE, herr] at h
        cases h

theorem foldE_pairs_err_only (e : FemElement) (s : FemState) (w : ℤ × ℤ × ℤ)
    (ps : List (Nat × Nat)) (A : BSM) (err : FemError)
    (h : foldE (fun A pq => A.addToBlock (e.nodes.getD pq.1 0) (e.nodes.getD pq.2 0)
        (e.combinedBlock s w pq.1 pq.2)) ps A = .error err) :
    err = .UnallocatedBlock := by
  induction ps generalizing A with
  | nil => rw [foldE] at h; cases h
  | cons pq rest ih =>
      rcases addToBlock_cases A (e.nodes.getD pq.1 0) (e.nodes.getD pq.2 0)
          (e.combinedBlock s w pq.1 pq.2) with
        ⟨_, A1, hok, _, _, _⟩ | ⟨_, herr⟩
      · rw [foldE, hok] at h
        exact ih A1 h
      · rw [foldE, herr] at h
        exact (Except.error.inj h).symm

/-! ### Tangent assembly: collapsing the pair scatter to one contribution -/

theorem pairDelta_eq_zero_of_not_mem (e : FemElement) (s : FemState) (w : ℤ × ℤ × ℤ)
    {pq : Nat × Nat} {r c : Nat}
    (h1 : pq.1 < e.nodes.length) (h2 : pq.2 < e.nodes.length)
    (h : r ∉ e.nodes ∨ c ∉ e.nodes) :
    pairDelta e s w pq r c = 0 := by
  by_cases hc : r = min (e.nodes.getD pq.1 0) (e.nodes.getD pq.2 0) ∧
      c = max (e.nodes.getD pq.1 0) (e.nodes.getD pq.2 0)
  · exfalso
    have ha : e.nodes.getD pq.1 0 ∈ e.nodes := getD_mem h1
    have hb : e.nodes.getD pq.2 0 ∈ e.nodes := getD_mem h2
    have hminmem : min (e.nodes.getD pq.1 0) (e.nodes.getD pq.2 0) ∈ e.nodes := by
      rcases le_total (e.nodes.getD pq.1 0) (e.nodes.getD pq.2 0) with hab | hab
      · rw [min_eq_left hab]; exact ha
      · rw [min_eq_right hab]; exact hb
    have hmaxmem : max (e.nodes.getD pq.1 0) (e.nodes.getD pq.2 0) ∈ e.nodes := by
      rcases le_total (e.nodes.getD pq.1 0) (e.nodes.getD pq.2 0) with hab | hab
      · rw [max_eq_right hab]; exact hb
      · rw [max_eq_left hab]; exact ha
    rcases h with hr | hcm
    · exact hr (hc.1.symm ▸ hminmem)
    · exact hcm (hc.2.symm ▸ hmaxmem)
  · unfold pairDelta
    exact if_neg hc

theorem pairDelta_eq_zero_of_ne (e : FemElement) (s : FemState) (w : ℤ × ℤ × ℤ)
    (hnd : e.nodes.Nodup) {r c p0 q0 : Nat}
    (hfr : findIndex r e.nodes = some p0) (hfc : findIndex c e.nodes = some q0)
    {pq : Nat × Nat} (h1 : pq.1 < e.nodes.length) (h2 : pq.2 < e.nodes.length)
    (hle : pq.1 ≤ pq.2) (hne : pq ≠ (min p0 q0, max p0 q0)) :
    pairDelta e s w pq r c = 0 := by
  obtain ⟨hp0, hgp0⟩ := findIndex_some hfr
  obtain ⟨hq0, hgq0⟩ := findIndex_some hfc
  by_cases hc : r = min (e.nodes.getD pq.1 0) (e.nodes.getD pq.2 0) ∧
      c = max (e.nodes.getD pq.1 0) (e.nodes.getD pq.2 0)
  · exfalso
    apply hne
    rcases le_total (e.nodes.getD pq.1 0) (e.nodes.getD pq.2 0) with hab | hab
    · have har : e.nodes.getD pq.1 0 = r := by rw [hc.1, min_eq_left hab]
      have hbc : e.nodes.getD pq.2 0 = c := by rw [hc.2, max_eq_right hab]
      have hp : pq.1 = p0 := nodup_getD_inj hnd h1 hp0 (har.trans hgp0.symm)
      have hq : pq.2 = q0 := nodup_getD_inj hnd h2 hq0 (hbc.trans hgq0.symm)
      have hpq0 : p0 ≤ q0 := hp ▸ hq ▸ hle
      rw [min_eq_left hpq0, max_eq_right hpq0]
      exact Prod.ext hp hq
    · have hbr : e.nodes.getD pq.2 0 = r := by rw [hc.1, min_eq_right hab]
      have hac : e.nodes.getD pq.1 0 = c := by rw [hc.2, max_eq_left hab]
      have hp : pq.1 = q0 := nodup_getD_inj hnd h1 hq0 (hac.trans hgq0.symm)
      have hq : pq.2 = p0 := nodup_getD_inj hnd h2 hp0 (hbr.trans hgp0.symm)
      have hq0p0 : q0 ≤ p0 := hp ▸ hq ▸ hle
      rw [min_eq_right hq0p0, max_eq_left hq0p0]
      exact Prod.ext hp hq
  · unfold pairDelta
    exact if_neg hc

theorem pairDelta_at_target (e : FemElement) (s : FemState) (w : ℤ × ℤ × ℤ)
    (hnd : e.nodes.Nodup)
    (hsym : ∀ p < e.nodes.length, ∀ q < e.nodes.length,
        e.combinedBlock s w p q = trans3 (e.combinedBlock s w q p))
    {r c p0 q0 : Nat} (hrc : r ≤ c)
    (hfr : findIndex r e.nodes = some p0) (hfc : findIndex c e.nodes = some q0) :
    pairDelta e s w (min p0 q0, max p0 q0) r c = e.combinedBlock s w p0 q0 := by
  obtain ⟨hp0, hgp0⟩ := findIndex_some hfr
  obtain ⟨hq0, hgq0⟩ := findIndex_some hfc
  rcases le_total p0 q0 with hpq | hpq
  · rw [min_eq_left hpq, max_eq_right hpq]
    unfold pairDelta
    rw [hgp0, hgq0, if_pos ⟨(min_eq_left hrc).symm, (max_eq_right hrc).symm⟩, if_pos hrc]
  · rw [min_eq_right hpq, max_eq_left hpq]
    unfold pairDelta
    rw [hgq0, hgp0]
    have h1 : r = min c r := by rw [min_comm]; exact (min_eq_left hrc).symm
    have h2 : c = max c r := by rw [max_comm]; exact (max_eq_right hrc).symm
    rw [if_pos ⟨h1, h2⟩]
    by_cases hcr : c ≤ r
    · have hrc' : r = c := le_antisymm hrc hcr
      have hp0q0 : p0 = q0 := nodup_getD_inj hnd hp0 hq0 (by rw [hgp0, hgq0, hrc'])
      rw [if_pos hcr, hp0q0]
    · rw [if_neg hcr]
      exact (hsym p0 hp0 q0 hq0).symm

theorem pairDelta_sum (e : FemElement) (s : FemState) (w : ℤ × ℤ × ℤ)
    (hnd : e.nodes.Nodup)
    (hsym : ∀ p < e.nodes.length, ∀ q < e.nodes.length,
        e.combinedBlock s w p q = trans3 (e.combinedBlock s w q p))
    (r c : Nat) (hrc : r ≤ c) :
    ((pairsLE e.nodes.length).map fun pq => pairDelta e s w pq r c).sum
      = e.tangentContrib s w r c := by
  cases hfr : findIndex r e.nodes with
  | none =>
      have hr : r ∉ e.nodes := fun hmem => by
        obtain ⟨p, hp⟩ := findIndex_isSome hmem
        rw [hfr] at hp
        cases hp
      have hz : ((pairsLE e.nodes.length).map fun pq => pairDelta e s w pq r c).sum = 0 := by
        apply List.sum_eq_zero
        intro y hy
        obtain ⟨pq, hpq, rfl⟩ := List.mem_map.mp hy
        obtain ⟨h1, h2, _⟩ := mem_pairsLE.mp hpq
        exact pairDelta_eq_zero_of_not_mem e s w h1 h2 (Or.inl hr)
      rw [hz]
      simp [FemElement.tangentContrib, hfr]
  | some p0 =>
      cases hfc : findIndex c e.nodes with
      | none =>
          have hcm : c ∉ e.nodes := fun hmem => by
            obtain ⟨q, hq⟩ := findIndex_isSome hmem
            rw [hfc] at hq
            cases hq
          have hz : ((pairsLE e.nodes.length).map fun pq => pairDelta e s w pq r c).sum = 0 := by
            apply List.sum_eq_zero
            intro y hy
            obtain ⟨pq, hpq, rfl⟩ := List.mem_map.mp hy
            obtain ⟨h1, h2, _⟩ := mem_pairsLE.mp hpq
            exact pairDelta_eq_zero_of_not_mem e s w h1 h2 (Or.inr hcm)
          rw [hz]
          simp [FemElement.tangentContrib, hfr, hfc]
      | some q0 =>
          obtain ⟨hp0, hgp0⟩ := findIndex_some hfr
          obtain ⟨hq0, hgq0⟩ := findIndex_some hfc
          have hmem : (min p0 q0, max p0 q0) ∈ pairsLE e.nodes.length :=
            mem_pairsLE.mpr ⟨lt_of_le_of_lt (min_le_left _ _) hp0, max_lt hp0 hq0, min_le_max⟩
          have hz : ∀ pq ∈ pairsLE e.nodes.length, pq ≠ (min p0 q0, max p0 q0) →
              pairDelta e s w pq r c = 0 := by
            intro pq hpq hne
            obtain ⟨h1, h2, hle⟩ := mem_pairsLE.mp hpq
            exact pairDelta_eq_zero_of_ne e s w hnd hfr hfc h1 h2 hle hne
          rw [sum_map_eq_single (pairsLE_nodup _) hmem hz,
            pairDelta_at_target e s w hnd hsym hrc hfr hfc]
          simp [FemElement.tangentContrib, hfr, hfc]

/-! ### Tangent assembly: element- and model-level lemmas -/

theorem get_le {A : BSM} {i j : Nat} (h : i ≤ j) : A.get i j = A.blocks i j := if_pos h

theorem get_gt {A : BSM} {i j : Nat} (h : ¬ i ≤ j) : A.get i j = trans3 (A.blocks j i) :=
  if_neg h

theorem scatterTangent_ok (e : FemElement) (s : FemState) (w : ℤ × ℤ × ℤ) (A : BSM)
    (hnd : e.nodes.Nodup)
    (hcov : ∀ a ∈ e.nodes, ∀ b ∈ e.nodes, A.alloc (min a b) (max a b) = true)
    (hsym : ∀ p < e.nodes.length, ∀ q < e.nodes.length,
        e.combinedBlock s w p q = trans3 (e.combinedBlock s w q p)) :
    ∃ A', e.scatterTangent s w A = .ok A' ∧ A'.alloc = A.alloc ∧
      A'.numBlockRows = A.numBlockRows ∧
      ∀ r c, r ≤ c → A'.blocks r c = A.blocks r c + e.tangentContrib s w r c := by
  have hall : ∀ pq ∈ pairsLE e.nodes.length,
      A.alloc (min (e.nodes.getD pq.1 0) (e.nodes.getD pq.2 0))
              (max (e.nodes.getD pq.1 0) (e.nodes.getD pq.2 0)) = true := by
    intro pq hpq
    obtain ⟨h1, h2, _⟩ := mem_pairsLE.mp hpq
    exact hcov _ (getD_mem h1) _ (getD_mem h2)
  obtain ⟨A', hA', ha, hr, hb⟩ := foldE_pairs e s w (pairsLE e.nodes.length) A hall
  refine ⟨A', hA', ha, hr, ?_⟩
  intro r c hrc
  rw [hb r c, pairDelta_sum e s w hnd hsym r c hrc]

theorem scatterTangent_succeeds (e : FemElement) (s : FemState) (w : ℤ × ℤ × ℤ) (A : BSM)
    (hcov : ∀ a ∈ e.nodes, ∀ b ∈ e.nodes, A.alloc (min a b) (max a b) = true) :
    ∃ A', e.scatterTangent s w A = .ok A' ∧ A'.alloc = A.alloc ∧
      A'.numBlockRows = A.numBlockRows := by
  have hall : ∀ pq ∈ pairsLE e.nodes.length,
      A.alloc (min (e.nodes.getD pq.1 0) (e.nodes.getD pq.2 0))
              (max (e.nodes.getD pq.1 0) (e.nodes.getD pq.2 0)) = true := by
    intro pq hpq
    obtain ⟨h1, h2, _⟩ := mem_pairsLE.mp hpq
    exact hcov _ (getD_mem h1) _ (getD_mem h2)
  obtain ⟨A', hA', ha, hr, _⟩ := foldE_pairs e s w (pairsLE e.nodes.length) A hall
  exact ⟨A', hA', ha, hr⟩

theorem scatterTangent_err (e : FemElement) (s : FemState) (w : ℤ × ℤ × ℤ) (A : BSM)
    (hbad : ∃ a ∈ e.nodes, ∃ b ∈ e.nodes, A.alloc (min a b) (max a b) = false) :
    e.scatterTangent s w A = .error .UnallocatedBlock := by
  obtain ⟨a, ha, b, hb, hf⟩ := hbad
  obtain ⟨p, hp, hpa⟩ := List.getElem_of_mem ha
  obtain ⟨q, hq, hqb⟩ := List.getElem_of_mem hb
  have hga : e.nodes.getD p 0 = a := by rw [List.getD_eq_getElem _ _ hp]; exact hpa
  have hgb : e.nodes.getD q 0 = b := by rw [List.getD_eq_getElem _ _ hq]; exact hqb
  apply foldE_pairs_err
  refine ⟨(min p q, max p q),
    mem_pairsLE.mpr ⟨lt_of_le_of_lt (min_le_left _ _) hp, max_lt hp hq, min_le_max⟩, ?_⟩
  rcases le_total p q with hpq | hpq
  · rw [min_eq_left hpq, max_eq_right hpq]
    show A.alloc (min (e.nodes.getD p 0) (e.nodes.getD q 0))
        (max (e.nodes.getD p 0) (e.nodes.getD q 0)) = false
    rw [hga, hgb]
    exact hf
  · rw [min_eq_right hpq, max_eq_left hpq]
    show A.alloc (min (e.nodes.getD q 0) (e.nodes.getD p 0))
        (max (e.nodes.getD q 0) (e.nodes.getD p 0)) = false
    rw [hga, hgb, min_comm, max_comm]
    exact hf

theorem scatterTangent_err_only (e : FemElement) (s : FemState) (w : ℤ × ℤ × ℤ)
    (A : BSM) (err : FemError) (h : e.scatterTangent s w A = .error err) :
    err = .UnallocatedBlock :=
  foldE_pairs_err_only e s w _ A err h

theorem scatterTangent_ok_inv (e : FemElement) (s : FemState) (w : ℤ × ℤ × ℤ)
    (A A' : BSM) (h : e.scatterTangent s w A = .ok A') :
    A'.alloc = A.alloc ∧ A'.numBlockRows = A.numBlockRows ∧
    ∀ i j, A.alloc i j = false → A'.blocks i j = A.blocks i j :=
  foldE_pairs_ok_inv e s w _ A A' h

theorem foldE_elements_ok (elems : List FemElement) (s : FemState) (w : ℤ × ℤ × ℤ)
    (A : BSM) (hnd : ∀ e ∈ elems, e.nodes.Nodup)
    (hcov : ∀ e ∈ elems, ∀ a ∈ e.nodes, ∀ b ∈ e.nodes, A.alloc (min a b) (max a b) = true)
    (hsym : ∀ e ∈ elems, ∀ p < e.nodes.length, ∀ q < e.nodes.length,
        e.combinedBlock s w p q = trans3 (e.combinedBlock s w q p)) :
    ∃ A', foldE (fun A e => e.scatterTangent s w A) elems A = .ok A' ∧
      A'.alloc = A.alloc ∧ A'.numBlockRows = A.numBlockRows ∧
      ∀ r c, r ≤ c → A'.blocks r c =
        A.blocks r c + ((elems.map fun e => e.tangentContrib s w r c).sum) := by
  induction elems generalizing A with
  | nil => exact ⟨A, rfl, rfl, rfl, fun r c _ => by simp⟩
  | cons e rest ih =>
      obtain ⟨A1, h1, ha1, hr1, hb1⟩ := scatterTangent_ok e s w A
        (hnd e (List.mem_cons_self _ _))
        (hcov e (List.mem_cons_self _ _))
        (hsym e (List.mem_cons_self _ _))
      obtain ⟨A', h', ha', hr', hb'⟩ := ih A1
        (fun e' he' => hnd e' (List.mem_cons_of_mem _ he'))
        (fun e' he' a hma b hmb => by
          rw [ha1]; exact hcov e' (List.mem_cons_of_mem _ he') a hma b hmb)
        (fun e' he' => hsym e' (List.mem_cons_of_mem _ he'))
      refine ⟨A', ?_, ha'.trans ha1, hr'.trans hr1, ?_⟩
      · rw [foldE, h1]; exact h'
      · intro r c hrc
        rw [hb' r c hrc, hb1 r c hrc, List.map_cons, List.sum_cons, add_assoc]

theorem foldE_elements_succeeds (elems : List FemElement) (s : FemState) (w : ℤ × ℤ × ℤ)
    (A : BSM)
    (hcov : ∀ e ∈ elems, ∀ a ∈ e.nodes, ∀ b ∈ e.nodes, A.alloc (min a b) (max a b) = true) :
    ∃ A', foldE (fun A e => e.scatterTangent s w A) elems A = .ok A' ∧
      A'.alloc = A.alloc ∧ A'.numBlockRows = A.numBlockRows := by
  induction elems generalizing A with
  | nil => exact ⟨A, rfl, rfl, rfl⟩
  | cons e rest ih =>
      obtain ⟨A1, h1, ha1, hr1⟩ := scatterTangent_succeeds e s w A
        (hcov e (List.mem_cons_self _ _))
      obtain ⟨A', h', ha', hr'⟩ := ih A1
        (fun e' he' a hma b hmb => by
          rw [ha1]; exact hcov e' (List.mem_cons_of_mem _ he') a hma b hmb)
      refine ⟨A', ?_, ha'.trans ha1, hr'.trans hr1⟩
      rw [foldE, h1]
      exact h'

theorem foldE_elements_err (elems : List FemElement) (s : FemState) (w : ℤ × ℤ × ℤ)
    (A : BSM)
    (hbad : ∃ e ∈ elems, ∃ a ∈ e.nodes, ∃ b ∈ e.nodes, A.alloc (min a b) (max a b) = false) :
    foldE (fun A e => e.scatterTangent s w A) elems A = .error .UnallocatedBlock := by
  induction elems generalizing A with
  | nil => obtain ⟨e, he, _⟩ := hbad; cases he
  | cons e0 rest ih =>
      obtain ⟨e, he, a, hma, b, hmb, hf⟩ := hbad
      rcases List.mem_cons.mp he with rfl | he'
      · rw [foldE, scatterTangent_err e s w A ⟨a, hma, b, hmb, hf⟩]
      · cases hres : e0.scatterTangent s w A with
        | ok A1 =>
            rw [foldE, hres]
            obtain ⟨ha1, _, _⟩ := scatterTangent_ok_inv e0 s w A A1 hres
            exact ih A1 ⟨e, he', a, hma, b, hmb, by rw [ha1]; exact hf⟩
        | error err =>
            rw [foldE, hres, scatterTangent_err_only e0 s w A err hres]

theorem foldE_elements_ok_inv (elems : List FemElement) (s : FemState) (w : ℤ × ℤ × ℤ)
    (A A' : BSM) (h : foldE (fun A e => e.scatterTangent s w A) elems A = .ok A') :
    A'.alloc = A.alloc ∧ A'.numBlockRows = A.numBlockRows ∧
    ∀ i j, A.alloc i j = false → A'.blocks i j = A.blocks i j := by
  induction elems generalizing A with
  | nil =>
      rw [foldE] at h
      obtain rfl := Except.ok.inj h
      exact ⟨rfl, rfl, fun _ _ _ => rfl⟩
  | cons e rest ih =>
      cases hres : e.scatterTangent s w A with
      | ok A1 =>
          rw [foldE, hres] at h
          obtain ⟨ha1, hr1, hb1⟩ := scatterTangent_ok_inv e s w A A1 hres
          obtain ⟨ha, hr, hb⟩ := ih A1 h
          refine ⟨ha.trans ha1, hr.trans hr1, ?_⟩
          intro i j hij
          rw [hb i j (by rw [ha1]; exact hij), hb1 i j hij]
      | error err =>
          rw [foldE, hres] at h
          cases h

theorem tangentContrib_symm (e : FemElement) (s : FemState) (w : ℤ × ℤ × ℤ)
    (hsym : ∀ p < e.nodes.length, ∀ q < e.nodes.length,
        e.combinedBlock s w p q = trans3 (e.combinedBlock s w q p))
    (i j : Nat) :
    trans3 (e.tangentContrib s w j i) = e.tangentContrib s w i j := by
  unfold FemElement.tangentContrib
  cases hfi : findIndex i e.nodes with
  | none =>
      cases hfj : findIndex j e.nodes with
      | none => exact trans3_zero
      | some q => exact trans3_zero
  | some p =>
      cases hfj : findIndex j e.nodes with
      | none => exact trans3_zero
      | some q =>
          obtain ⟨hp, _⟩ := findIndex_some hfi
          obtain ⟨hq, _⟩ := findIndex_some hfj
          exact (hsym p hp q hq).symm

/-! ### Claim theorems: tangent matrix -/

/-- C2: under a compatible state, a properly sized and allocated output
matrix, and element local matrices that are block-symmetric (the element
trait guarantees symmetry, spec §4.1), `CalcTangentMatrix` succeeds and
adds into the output exactly the sum over elements of the weighted local
tangent `wₖ·Kₑ + w_d·Dₑ + w_m·Mₑ` scattered through each element's
node-index map; block-wise symmetry of the matrix is preserved. -/
theorem CalcTangentMatrix_adds_scattered_symm (m : FemModel) (s : FemState)
    (w : ℤ × ℤ × ℤ) (T : BSM) (hwf : m.wf) (hacc : m.accepts s)
    (hsize : 3 * T.numBlockRows = m.num_dofs)
    (hcov : ∀ e ∈ m.elements, ∀ a ∈ e.nodes, ∀ b ∈ e.nodes,
        T.alloc (min a b) (max a b) = true)
    (hsym : ∀ e ∈ m.elements, ∀ p < e.nodes.length, ∀ q < e.nodes.length,
        e.combinedBlock s w p q = trans3 (e.combinedBlock s w q p)) :
    ∃ T', m.CalcTangentMatrix s w T = .ok T' ∧
      (∀ i j, T'.get i j = T.get i j +
        (m.elements.map fun e => e.tangentContrib s w i j).sum) ∧
      (T.isSymm → T'.isSymm) := by
  obtain ⟨T', hT', ha, hr, hb⟩ := foldE_elements_ok m.elements s w T
    (fun e he => (hwf.2.2 e he).1) hcov hsym
  have hfac : m.CalcTangentMatrix s w T =
      foldE (fun A e => e.scatterTangent s w A) m.elements T := by
    simp [FemModel.CalcTangentMatrix, hacc, hsize]
  have hget : ∀ i j, T'.get i j = T.get i j +
      (m.elements.map fun e => e.tangentContrib s w i j).sum := by
    intro i j
    by_cases hij : i ≤ j
    · rw [get_le hij, get_le hij]
      exact hb i j hij
    · have hji : j ≤ i := le_of_not_le hij
      rw [get_gt hij, get_gt hij, hb j i hji, trans3_add, trans3_sum, List.map_map]
      congr 1
      exact congrArg List.sum
        (List.map_congr_left fun e he => tangentContrib_symm e s w (hsym e he) i j)
  refine ⟨T', hfac.trans hT', hget, ?_⟩
  intro hTs i j
  rw [hget j i, hget i j, trans3_add, trans3_sum, List.map_map, hTs i j]
  congr 1
  exact (congrArg List.sum
    (List.map_congr_left fun e he => tangentContrib_symm e s w (hsym e he) j i)).symm

theorem CalcTangentMatrix_adds_scattered_symm_witness :
    m0.wf ∧ m0.accepts s0 ∧ 3 * T0.numBlockRows = m0.num_dofs ∧
    (∃ T', m0.CalcTangentMatrix s0 w0 T0 = .ok T' ∧
      (∀ i j, T'.get i j = T0.get i j +
        (m0.elements.map fun e => e.tangentContrib s0 w0 i j).sum) ∧
      (T0.isSymm → T'.isSymm)) :=
  ⟨by decide, by decide, by decide,
   CalcTangentMatrix_adds_scattered_symm m0 s0 w0 T0 (by decide) (by decide) (by decide)
     (by decide) (by decide)⟩

/-- C7: with a compatible state and a properly sized output matrix whose
allocated pattern misses a block required by some element's node pair,
`CalcTangentMatrix` fails with UnallocatedBlock; and whenever it
succeeds, no unallocated stored block was modified. -/
theorem CalcTangentMatrix_unallocated (m : FemModel) (s : FemState) (w : ℤ × ℤ × ℤ)
    (T : BSM) (hacc : m.accepts s) (hsize : 3 * T.numBlockRows = m.num_dofs) :
    ((∃ e ∈ m.elements, ∃ a ∈ e.nodes, ∃ b ∈ e.nodes,
        T.alloc (min a b) (max a b) = false) →
      m.CalcTangentMatrix s w T = .error .UnallocatedBlock) ∧
    (∀ T', m.CalcTangentMatrix s w T = .ok T' →
      ∀ i j, T.alloc i j = false → T'.blocks i j = T.blocks i j) := by
  have hfac : m.CalcTangentMatrix s w T =
      foldE (fun A e => e.scatterTangent s w A) m.elements T := by
    simp [FemModel.CalcTangentMatrix, hacc, hsize]
  constructor
  · intro hbad
    rw [hfac]
    exact foldE_elements_err m.elements s w T hbad
  · intro T' hok i j hij
    rw [hfac] at hok
    exact (foldE_elements_ok_inv m.elements s w T T' hok).2.2 i j hij

theorem CalcTangentMatrix_unallocated_witness :
    m0.accepts s0 ∧ 3 * Tbad.numBlockRows = m0.num_dofs ∧
    m0.CalcTangentMatrix s0 w0 Tbad = .error .UnallocatedBlock :=
  ⟨by decide, by decide,
   (CalcTangentMatrix_unallocated m0 s0 w0 Tbad (by decide) (by decide)).1 (by decide)⟩

theorem adjacent_min_max (m : FemModel) {e : FemElement} (he : e ∈ m.elements)
    {a b : Nat} (ha : a ∈ e.nodes) (hb : b ∈ e.nodes) :
    m.adjacent (min a b) (max a b) = true := by
  have hmin : min a b ∈ e.nodes := by
    rcases le_total a b with h | h
    · rw [min_eq_left h]; exact ha
    · rw [min_eq_right h]; exact hb
  have hmax : max a b ∈ e.nodes := by
    rcases le_total a b with h | h
    · rw [max_eq_right h]; exact hb
    · rw [max_eq_left h]; exact ha
  simp only [FemModel.adjacent, List.any_eq_true]
  exact ⟨e, he, by simp [hmin, hmax]⟩

theorem CalcTangentMatrix_succeeds (m : FemModel) (s : FemState) (w : ℤ × ℤ × ℤ)
    (A : BSM) (hacc : m.accepts s) (hsize : 3 * A.numBlockRows = m.num_dofs)
    (hcov : ∀ e ∈ m.elements, ∀ a ∈ e.nodes, ∀ b ∈ e.nodes,
        A.alloc (min a b) (max a b) = true) :
    ∃ A', m.CalcTangentMatrix s w A = .ok A' ∧ A'.alloc = A.alloc ∧
      A'.numBlockRows = A.numBlockRows := by
  have hfac : m.CalcTangentMatrix s w A =
      foldE (fun B e => e.scatterTangent s w B) m.elements A := by
    simp [FemModel.CalcTangentMatrix, hacc, hsize]
  obtain ⟨A', h', ha, hr⟩ := foldE_elements_succeeds m.elements s w A hcov
  exact ⟨A', hfac.trans h', ha, hr⟩

/-- C3: the matrix produced by
`MakePetscSymmetricBlockSparseTangentMatrix()` is `num_dofs()` by
`num_dofs()` (3 scalar rows per block row), all of its entries are zero,
its allocated 3×3 block pattern contains `(i, j)` exactly when some
element references both node `i` and node `j`, and it can be passed
repeatedly to `CalcTangentMatrix` (with any compatible state) without
error. -/
theorem MakeTangentMatrix_spec (m : FemModel) (hwf : m.wf) :
    3 * (m.MakePetscSymmetricBlockSparseTangentMatrix).numBlockRows = m.num_dofs ∧
    (∀ i j, (m.MakePetscSymmetricBlockSparseTangentMatrix).get i j = 0) ∧
    (∀ i j, (m.MakePetscSymmetricBlockSparseTangentMatrix).alloc i j = true ↔
        ∃ e ∈ m.elements, i ∈ e.nodes ∧ j ∈ e.nodes) ∧
    (∀ (s : FemState) (w : ℤ × ℤ × ℤ) (n : Nat), m.accepts s →
      ∃ T', m.iterTangent s w n (m.MakePetscSymmetricBlockSparseTangentMatrix) = .ok T') := by
  have hsize : 3 * (m.MakePetscSymmetricBlockSparseTangentMatrix).numBlockRows = m.num_dofs :=
    Nat.mul_div_cancel' (Nat.dvd_of_mod_eq_zero hwf.1)
  refine ⟨hsize, ?_, ?_, ?_⟩
  · intro i j
    by_cases hij : i ≤ j
    · rw [get_le hij]; rfl
    · rw [get_gt hij]; exact trans3_zero
  · intro i j
    show m.adjacent i j = true ↔ _
    simp [FemModel.adjacent, List.any_eq_true]
  · intro s w n hacc
    have key : ∀ (n : Nat) (A : BSM),
        A.alloc = (m.MakePetscSymmetricBlockSparseTangentMatrix).alloc →
        A.numBlockRows = (m.MakePetscSymmetricBlockSparseTangentMatrix).numBlockRows →
        ∃ T', m.iterTangent s w n A = .ok T' := by
      intro n
      induction n with
      | zero => exact fun A _ _ => ⟨A, rfl⟩
      | succ n ih =>
          intro A ha hr
          have hsizeA : 3 * A.numBlockRows = m.num_dofs := by rw [hr]; exact hsize
          have hcovA : ∀ e ∈ m.elements, ∀ a ∈ e.nodes, ∀ b ∈ e.nodes,
              A.alloc (min a b) (max a b) = true := by
            intro e he a hma b hmb
            rw [ha]
            show m.adjacent _ _ = true
            exact adjacent_min_max m he hma hmb
          obtain ⟨A', hok, ha', hr'⟩ := CalcTangentMatrix_succeeds m s w A hacc hsizeA hcovA
          obtain ⟨T', hT'⟩ := ih A' (ha'.trans ha) (hr'.trans hr)
          refine ⟨T', ?_⟩
          rw [FemModel.iterTangent, hok]
          exact hT'
    exact key n _ rfl rfl

theorem MakeTangentMatrix_spec_witness :
    m0.wf ∧ m0.accepts s0 ∧
    (∃ T', m0.iterTangent s0 w0 2 m0.MakePetscSymmetricBlockSparseTangentMatrix = .ok T') :=
  ⟨by decide, by decide,
   (MakeTangentMatrix_spec m0 (by decide)).2.2.2 s0 w0 2 (by decide)⟩
